import Mathlib

/-
Verification of the FarmTrack state/sync layer (src/App.tsx).

The embedding models the entity store (six collections plus four
configuration scalars) and the mutation operations of the root
application component.  JavaScript numbers on which the code computes
(stocks, quantities, amounts) are modelled as integers: the only
arithmetic the code performs on them is addition, subtraction and max,
which are exact on integers.  The one field produced by a true division
(basePrice, in the bulk sales import) is modelled as a rational.
`Date.now()` and the generated log identifiers are nondeterministic
inputs and appear as explicit parameters of the operations using them.
-/

namespace FarmTrack

inductive PaymentStatus where
  | Paid
  | Pending
  deriving DecidableEq, Repr

inductive LogAction where
  | Created
  | Updated
  | Deleted
  deriving DecidableEq, Repr

inductive LiabilityStatus where
  | Active
  | Settled
  deriving DecidableEq, Repr

inductive ThemeMode where
  | light
  | dark
  | system
  deriving DecidableEq, Repr

inductive DateSystem where
  | AD
  | BS
  deriving DecidableEq, Repr

/-- Product record (src/types.ts).  The category union type is modelled as a
plain string. -/
structure Product where
  id : String
  name : String
  unit : String
  basePrice : Rat
  category : String
  imageUrl : Option String := none
  isGeneratingImage : Option Bool := none
  currentStock : Int
  minStockLevel : Int
  discountPercentage : Option Int := none
  taxPercentage : Option Int := none
  deriving DecidableEq, Repr

structure Customer where
  id : String
  name : String
  phone : String
  email : Option String := none
  address : Option String := none
  createdAt : Int
  deriving DecidableEq, Repr

structure Sale where
  id : String
  customerId : String
  productId : String
  quantity : Int
  totalAmount : Int
  date : Int
  paymentStatus : PaymentStatus
  notes : Option String := none
  deriving DecidableEq, Repr

/-- Activity log record (src/types.ts).  The `metadata` field is typed `any`
in the source but is only ever populated with a deleted sale's snapshot, so it
is modelled as an optional sale. -/
structure ActivityLog where
  id : String
  action : LogAction
  timestamp : Int
  details : String
  entityName : String
  customerName : String
  amount : Int
  metadata : Option Sale := none
  deriving DecidableEq, Repr

structure Expense where
  id : String
  description : String
  amount : Int
  date : Int
  category : String
  deriving DecidableEq, Repr

structure Liability where
  id : String
  source : String
  amount : Int
  interestRate : Int
  date : Int
  dueDate : Int
  status : LiabilityStatus
  deriving DecidableEq, Repr

structure Currency where
  code : String
  symbol : String
  name : String
  deriving DecidableEq, Repr

/-- The entity store of the root component: six collections plus the four
configuration scalars (src/App.tsx lines 38-49). -/
structure AppState where
  sales : List Sale
  customers : List Customer
  products : List Product
  expenses : List Expense
  liabilities : List Liability
  logs : List ActivityLog
  themeMode : ThemeMode
  dateSystem : DateSystem
  currencyCode : String
  customCurrency : Option Currency
  deriving DecidableEq, Repr

/-- The initial store contents (the useState initialisers). -/
def initialState : AppState :=
  { sales := [], customers := [], products := [], expenses := [],
    liabilities := [], logs := [], themeMode := .system, dateSystem := .BS,
    currencyCode := "USD", customCurrency := none }

/-- JavaScript `x || dft` on an optional string: `undefined` and the empty
string are falsy. -/
def jsStringOr (s : Option String) (dft : String) : String :=
  match s with
  | some v => if v = "" then dft else v
  | none => dft

def PaymentStatus.label : PaymentStatus → String
  | .Paid => "Paid"
  | .Pending => "Pending"

/-- `recordActivity` (App.tsx line 158): builds a log entry and prepends it.
The generated id and `Date.now()` timestamp are passed in explicitly. -/
def recordActivity (freshId : String) (now : Int) (action : LogAction)
    (entityName customerName : String) (amount : Int) (details : String)
    (metadata : Option Sale) (logs : List ActivityLog) : List ActivityLog :=
  { id := freshId, action := action, timestamp := now, details := details,
    entityName := entityName, customerName := customerName, amount := amount,
    metadata := metadata } :: logs

/-- `addSale` (App.tsx lines 163-169). -/
def addSale (freshId : String) (now : Int) (newSale : Sale) (st : AppState) :
    AppState :=
  let p := st.products.find? (fun p => p.id == newSale.productId)
  let c := st.customers.find? (fun c => c.id == newSale.customerId)
  { st with
    sales := newSale :: st.sales,
    products := st.products.map (fun prod =>
      if prod.id == newSale.productId then
        { prod with currentStock := max 0 (prod.currentStock - newSale.quantity) }
      else prod),
    logs := recordActivity freshId now .Created
      (jsStringOr (p.map Product.name) "Unknown")
      (jsStringOr (c.map Customer.name) "Retail")
      newSale.totalAmount
      ("Sold " ++ toString newSale.quantity ++ " units") none st.logs }

/-- `updateSale` (App.tsx lines 171-184).  The product and customer looked up
for the log message come from the pre-update collections (the closure values
in the source). -/
def updateSale (freshId : String) (now : Int) (updatedSale : Sale)
    (st : AppState) : AppState :=
  match st.sales.find? (fun s => s.id == updatedSale.id) with
  | none => st
  | some oldSale =>
    let products1 := st.products.map (fun p =>
      if p.id == oldSale.productId then
        { p with currentStock := p.currentStock + oldSale.quantity }
      else p)
    let products2 := products1.map (fun p =>
      if p.id == updatedSale.productId then
        { p with currentStock := max 0 (p.currentStock - updatedSale.quantity) }
      else p)
    let p := st.products.find? (fun prod => prod.id == updatedSale.productId)
    let c := st.customers.find? (fun cust => cust.id == updatedSale.customerId)
    { st with
      products := products2,
      sales := st.sales.map (fun s =>
        if s.id == updatedSale.id then updatedSale else s),
      logs := recordActivity freshId now .Updated
        (jsStringOr (p.map Product.name) "Unknown")
        (jsStringOr (c.map Customer.name) "Unknown")
        updatedSale.totalAmount
        ("Adjusted quantity: " ++ toString updatedSale.quantity ++
          ", Status: " ++ updatedSale.paymentStatus.label) none st.logs }

/-- `deleteSale` (App.tsx lines 186-194): logs a Deleted entry carrying the
full sale snapshot, then filters the sale out.  Products are untouched. -/
def deleteSale (freshId : String) (now : Int) (id : String) (st : AppState) :
    AppState :=
  let logs' :=
    match st.sales.find? (fun s => s.id == id) with
    | some saleToDelete =>
      let p := st.products.find? (fun prod => prod.id == saleToDelete.productId)
      let c := st.customers.find? (fun cust => cust.id == saleToDelete.customerId)
      recordActivity freshId now .Deleted
        (jsStringOr (p.map Product.name) "Unknown")
        (jsStringOr (c.map Customer.name) "Unknown")
        saleToDelete.totalAmount "Transaction removed from ledger"
        (some saleToDelete) st.logs
    | none => st.logs
  { st with logs := logs', sales := st.sales.filter (fun s => s.id != id) }

/-- `restoreSale` (App.tsx lines 196-207): guarded re-insertion of a deleted
sale from a log snapshot.  The alert on the duplicate-id branch is a pure UI
side effect; the state is returned unchanged there. -/
def restoreSale (freshId : String) (now : Int) (log : ActivityLog)
    (st : AppState) : AppState :=
  match log.metadata with
  | none => st
  | some saleToRestore =>
    if st.sales.any (fun s => s.id == saleToRestore.id) then st
    else
      { st with
        sales := saleToRestore :: st.sales,
        products := st.products.map (fun p =>
          if p.id == saleToRestore.productId then
            { p with currentStock := max 0 (p.currentStock - saleToRestore.quantity) }
          else p),
        logs := recordActivity freshId now .Created log.entityName
          log.customerName log.amount
          ("Restored archived transaction: " ++ log.details) none
          (st.logs.filter (fun l => l.id != log.id)) }

/-- `addCustomer` (App.tsx line 209). -/
def addCustomer (newCustomer : Customer) (st : AppState) : AppState :=
  { st with customers := newCustomer :: st.customers }

/-- `updateCustomer` (App.tsx lines 211-219): replaces the customer by id and,
when the name changed, rewrites the denormalized customerName of every log
entry bearing the old name. -/
def updateCustomer (updatedCustomer : Customer) (st : AppState) : AppState :=
  let oldCustomer := st.customers.find? (fun c => c.id == updatedCustomer.id)
  let customers' := st.customers.map (fun c =>
    if c.id == updatedCustomer.id then updatedCustomer else c)
  let logs' :=
    match oldCustomer with
    | some oc =>
      if oc.name ≠ updatedCustomer.name then
        st.logs.map (fun log =>
          if log.customerName == oc.name then
            { log with customerName := updatedCustomer.name }
          else log)
      else st.logs
    | none => st.logs
  { st with customers := customers', logs := logs' }

/-- `deleteCustomer` (App.tsx lines 221-224): hard cascade onto sales. -/
def deleteCustomer (id : String) (st : AppState) : AppState :=
  { st with
    customers := st.customers.filter (fun c => c.id != id),
    sales := st.sales.filter (fun s => s.customerId != id) }

/-- `deleteLog` (App.tsx line 226). -/
def deleteLog (id : String) (st : AppState) : AppState :=
  { st with logs := st.logs.filter (fun l => l.id != id) }

def addExpense (exp : Expense) (st : AppState) : AppState :=
  { st with expenses := exp :: st.expenses }

def updateExpense (updatedExp : Expense) (st : AppState) : AppState :=
  { st with expenses := st.expenses.map (fun e =>
      if e.id == updatedExp.id then updatedExp else e) }

def deleteExpense (id : String) (st : AppState) : AppState :=
  { st with expenses := st.expenses.filter (fun e => e.id != id) }

/-- `addLiability` (App.tsx line 231). -/
def addLiability (lib : Liability) (st : AppState) : AppState :=
  { st with liabilities := lib :: st.liabilities }

/-- `updateLiability` (App.tsx line 232): wholesale replacement by id. -/
def updateLiability (updatedLib : Liability) (st : AppState) : AppState :=
  { st with liabilities := st.liabilities.map (fun l =>
      if l.id == updatedLib.id then updatedLib else l) }

/-- `settleLiability` (App.tsx line 233). -/
def settleLiability (id : String) (st : AppState) : AppState :=
  { st with liabilities := st.liabilities.map (fun lib =>
      if lib.id == id then { lib with status := .Settled } else lib) }

/-- Modelled from the spec: a `deleteLiability` operation is part of the
Liability "CRUD + settle" surface described in the spec but is absent from
src/ (only FinanceManager, which is not in src/, would call it); it removes
the liability with the given id. -/
def deleteLiability (id : String) (st : AppState) : AppState :=
  { st with liabilities := st.liabilities.filter (fun l => l.id != id) }

/-- `addProductsBulk` (App.tsx lines 244-259): session-replacing import.  The
asynchronous per-product image patch is fire-and-forget and not part of the
synchronous transition. -/
def addProductsBulk (newProducts : List Product) (st : AppState) : AppState :=
  { st with
    sales := [], customers := [], expenses := [], liabilities := [], logs := [],
    products := newProducts.map (fun p => { p with isGeneratingImage := some true }) }

/-- `updateProduct` (App.tsx line 306). -/
def updateProduct (updatedProduct : Product) (st : AppState) : AppState :=
  { st with products := st.products.map (fun p =>
      if p.id == updatedProduct.id then updatedProduct else p) }

/-- `deleteProduct` (App.tsx lines 307-310). -/
def deleteProduct (id : String) (st : AppState) : AppState :=
  { st with
    products := st.products.filter (fun p => p.id != id),
    sales := st.sales.filter (fun s => s.productId != id) }

/-- `updateStock` (App.tsx line 311). -/
def updateStock (productId : String) (newStock : Int) (st : AppState) : AppState :=
  { st with products := st.products.map (fun p =>
      if p.id == productId then { p with currentStock := newStock } else p) }

end FarmTrack

namespace FarmTrack

/-- JavaScript `v || dft` on a number: `0` (and `NaN`, not modelled) is
falsy. -/
def jsNumOr (v : Int) (dft : Int) : Int :=
  if v = 0 then dft else v

/-- A parsed CSV row as handed to `bulkImportSales` by the dashboard import
(fields as accessed by App.tsx lines 283-298).  `DateAD` is the result of
`new Date(row.DateAD).getTime()`: `none` models an unparseable date (NaN). -/
structure CsvRow where
  Customer : String
  Product : String
  Category : Option String := none
  Unit : Option String := none
  Amount : Int
  Quantity : Int
  Status : Option String := none
  DateAD : Option Int := none
  deriving DecidableEq, Repr

/-- Applies `f` to the first list element satisfying `p` (the JavaScript code
mutates the object returned by `find` in place; that object is the first
match in the array). -/
def updateFirst (p : α → Bool) (f : α → α) : List α → List α
  | [] => []
  | x :: xs => if p x then f x :: xs else x :: updateFirst p f xs

/-- Accumulator of the `parsedRows.forEach` loop in `bulkImportSales`
(App.tsx lines 279-299). -/
structure ImportAcc where
  newSales : List Sale
  currentProducts : List Product
  currentCustomers : List Customer
  deriving DecidableEq, Repr

/-- The customer record synthesized for a CSV row whose customer name does
not match any already-imported customer (App.tsx line 286). -/
def importedCustomer (now : Int) (idx : Nat) (row : CsvRow) : Customer :=
  { id := "CUST-" ++ toString now ++ "-" ++ toString idx,
    name := row.Customer, phone := "", createdAt := now }

/-- The product record synthesized for a CSV row whose product name does not
match any already-imported product (App.tsx line 291): it is created with
currentStock 0. -/
def importedProduct (now : Int) (idx : Nat) (row : CsvRow) : Product :=
  { id := "PROD-" ++ toString now ++ "-" ++ toString idx,
    name := row.Product, category := jsStringOr row.Category "General",
    unit := jsStringOr row.Unit "kg",
    basePrice := (row.Amount : Rat) / ((jsNumOr row.Quantity 1 : Int) : Rat),
    currentStock := 0, minStockLevel := 5, isGeneratingImage := some true }

/-- One iteration of the `bulkImportSales` row loop (App.tsx lines 283-299):
find or synthesize the customer and the product by lowercased-trimmed name,
push the synthesized sale, and decrement the found product's stock in place,
floored at 0. -/
def importRow (now : Int) (idx : Nat) (row : CsvRow) (acc : ImportAcc) :
    ImportAcc :=
  let customerMatch := fun (c : Customer) =>
    c.name.toLower.trim == row.Customer.toLower.trim
  let (customer, customers') :=
    match acc.currentCustomers.find? customerMatch with
    | some c => (c, acc.currentCustomers)
    | none =>
      (importedCustomer now idx row,
        acc.currentCustomers ++ [importedCustomer now idx row])
  let productMatch := fun (p : Product) =>
    p.name.toLower.trim == row.Product.toLower.trim
  let (product, products') :=
    match acc.currentProducts.find? productMatch with
    | some p => (p, acc.currentProducts)
    | none =>
      (importedProduct now idx row,
        acc.currentProducts ++ [importedProduct now idx row])
  let rawStatus := (jsStringOr row.Status "Paid").trim.toLower
  let finalStatus : PaymentStatus := if rawStatus = "paid" then .Paid else .Pending
  let saleDate : Int :=
    match row.DateAD with
    | some t => if t = 0 then now else t
    | none => now
  let sale : Sale :=
    { id := "SALE-" ++ toString now ++ "-" ++ toString idx,
      customerId := customer.id, productId := product.id,
      quantity := row.Quantity, totalAmount := row.Amount, date := saleDate,
      paymentStatus := finalStatus, notes := some "Bulk Imported (New Session)" }
  { newSales := acc.newSales ++ [sale],
    currentProducts := updateFirst productMatch
      (fun p => { p with currentStock := max 0 (p.currentStock - row.Quantity) })
      products',
    currentCustomers := customers' }

/-- The `forEach` over the parsed rows, with its running index. -/
def importRows (now : Int) : Nat → List CsvRow → ImportAcc → ImportAcc
  | _, [], acc => acc
  | idx, row :: rest, acc => importRows now (idx + 1) rest (importRow now idx row acc)

/-- `bulkImportSales` (App.tsx lines 273-304): wipes expenses, liabilities and
logs, synthesizes sales, products and customers from the rows, and replaces
those three collections wholesale. -/
def bulkImportSales (now : Int) (parsedRows : List CsvRow) (st : AppState) :
    AppState :=
  let acc := importRows now 0 parsedRows ⟨[], [], []⟩
  { st with
    expenses := [], liabilities := [], logs := [],
    sales := acc.newSales,
    products := acc.currentProducts,
    customers := acc.currentCustomers }

/-- The debounce delay in milliseconds passed to `setTimeout` by the
persistence effect (App.tsx line 130). -/
def debounceMs : Nat := 1000

/-- The snapshot written by a persistence flush: the entire entity store plus
a `lastUpdated` stamp taken when the flush runs (App.tsx lines 114-118). -/
structure SyncSnapshot where
  data : AppState
  lastUpdated : Int
  deriving DecidableEq, Repr

/-- Discrete-event model of the persistence effect (App.tsx lines 104-132):
`pending` is the state captured by the currently armed `setTimeout` (if any),
`flushes` the list of snapshots written so far, in order.  The authentication
gating and the suppressed first effect run happen before any mutation of a
live session and are not part of the model. -/
structure SyncController where
  pending : Option AppState
  flushes : List SyncSnapshot
  deriving DecidableEq, Repr

inductive SyncEvent where
  /-- A change to any of the six collections or four configuration scalars
  re-runs the effect: the cleanup `clearTimeout` cancels the armed timer and a
  new `setTimeout` captures the new state. -/
  | change (st : AppState)
  /-- The armed timer expires `debounceMs` after the last change and
  `triggerSync` writes the captured snapshot. -/
  | timerFire (now : Int)
  deriving DecidableEq, Repr

def syncStep (c : SyncController) : SyncEvent → SyncController
  | .change st => { c with pending := some st }
  | .timerFire now =>
    match c.pending with
    | some st => { pending := none, flushes := c.flushes ++ [⟨st, now⟩] }
    | none => c

def syncRun (c : SyncController) (evs : List SyncEvent) : SyncController :=
  evs.foldl syncStep c

/-- The four sale-ledger operations of claim C1, with their nondeterministic
fresh-id and clock inputs. -/
inductive SaleOp where
  | add (freshId : String) (now : Int) (s : Sale)
  | update (freshId : String) (now : Int) (s : Sale)
  | del (freshId : String) (now : Int) (id : String)
  | restore (freshId : String) (now : Int) (log : ActivityLog)
  deriving DecidableEq, Repr

def applySaleOp (st : AppState) : SaleOp → AppState
  | .add f n s => addSale f n s st
  | .update f n s => updateSale f n s st
  | .del f n i => deleteSale f n i st
  | .restore f n lg => restoreSale f n lg st

def applySaleOps (st : AppState) (ops : List SaleOp) : AppState :=
  ops.foldl applySaleOp st

/-- Current stock of the first product with the given id (0 if absent). -/
def stockOf (pid : String) (st : AppState) : Int :=
  match st.products.find? (fun p => p.id == pid) with
  | some p => p.currentStock
  | none => 0

/-- The product the claim talks about is present in the catalog. -/
def productExists (pid : String) (st : AppState) : Prop :=
  (st.products.find? (fun p => p.id == pid)).isSome = true

/-- Store well-formedness used by the stock claims: stocks are nonnegative and
every recorded sale has nonnegative quantity. -/
def saleStateWF (st : AppState) : Prop :=
  (∀ p ∈ st.products, 0 ≤ p.currentStock) ∧ (∀ s ∈ st.sales, 0 ≤ s.quantity)

/-- All quantities an operation can introduce into the store are
nonnegative (the spec requires sale quantities to be positive). -/
def opQtyNonneg : SaleOp → Prop
  | .add _ _ s => 0 ≤ s.quantity
  | .update _ _ s => 0 ≤ s.quantity
  | .del _ _ _ => True
  | .restore _ _ lg =>
    match lg.metadata with
    | some s => 0 ≤ s.quantity
    | none => True

/-- The net stock charge of one operation against product `pid`, read off the
state it executes in: an `addSale` or effective `restoreSale` charges its
quantity, an effective `updateSale` charges the new quantity and releases the
old one, a `deleteSale` charges nothing. -/
def chargeOf (pid : String) (st : AppState) : SaleOp → Int
  | .add _ _ s => if s.productId = pid then s.quantity else 0
  | .update _ _ s =>
    match st.sales.find? (fun t => t.id == s.id) with
    | none => 0
    | some oldSale =>
      (if s.productId = pid then s.quantity else 0) -
        (if oldSale.productId = pid then oldSale.quantity else 0)
  | .del _ _ _ => 0
  | .restore _ _ lg =>
    match lg.metadata with
    | none => 0
    | some s =>
      if st.sales.any (fun t => t.id == s.id) then 0
      else if s.productId = pid then s.quantity else 0

/-- The charges of a sequence of operations, each read off the state it
executes in. -/
def chargesOf (pid : String) (st : AppState) : List SaleOp → List Int
  | [] => []
  | op :: ops => chargeOf pid st op :: chargesOf pid (applySaleOp st op) ops

/-- Reference stock evolution, following the specification's words: the stock
starts at S₀ and each charge is subtracted in turn, with the value floored at
0 at every intermediate step. -/
def flooredStock (s0 : Int) (charges : List Int) : Int :=
  charges.foldl (fun s c => max 0 (s - c)) s0

end FarmTrack
namespace FarmTrack

theorem find?_map_id {l : List Product} {f : Product → Product} {pid : String}
    (hid : ∀ x, (f x).id = x.id) :
    (l.map f).find? (fun p => p.id == pid)
      = (l.find? (fun p => p.id == pid)).map f := by
  rw [List.find?_map]
  have h : ((fun p : Product => p.id == pid) ∘ f)
      = (fun p : Product => p.id == pid) := by
    funext x
    simp [Function.comp, hid x]
  rw [h]

/-- The Deleted log entry `deleteSale` records for the sale `s` it removes:
the snapshot in `metadata` is the full sale object. -/
def deletedLogFor (freshId : String) (now : Int) (st : AppState) (s : Sale) :
    ActivityLog :=
  { id := freshId, action := .Deleted, timestamp := now,
    details := "Transaction removed from ledger",
    entityName := jsStringOr
      ((st.products.find? (fun prod => prod.id == s.productId)).map Product.name)
      "Unknown",
    customerName := jsStringOr
      ((st.customers.find? (fun cust => cust.id == s.customerId)).map Customer.name)
      "Unknown",
    amount := s.totalAmount, metadata := some s }

/-- Claim C3: for every state containing a sale with the given id,
`deleteSale` removes that sale from the sales list, appends a Deleted
activity log whose metadata snapshot equals the full sale object, and leaves
every product's currentStock unchanged (no stock reversal on delete). -/
theorem deleteSale_asymmetry (freshId : String) (now : Int) (saleId : String)
    (st : AppState) (s : Sale)
    (hfind : st.sales.find? (fun t => t.id == saleId) = some s) :
    (deleteSale freshId now saleId st).sales
        = st.sales.filter (fun t => t.id != saleId)
    ∧ (∀ t ∈ (deleteSale freshId now saleId st).sales, t.id ≠ saleId)
    ∧ (deleteSale freshId now saleId st).products = st.products
    ∧ ∃ dLog, (deleteSale freshId now saleId st).logs = dLog :: st.logs
        ∧ dLog.action = .Deleted ∧ dLog.metadata = some s := by
  refine ⟨rfl, ?_, rfl, ?_⟩
  · intro t ht
    have h := (List.mem_filter.mp ht).2
    simpa using h
  · refine ⟨deletedLogFor freshId now st s, ?_, rfl, rfl⟩
    simp [deleteSale, hfind, recordActivity, deletedLogFor]

/-- Erases the fields of a product that the asynchronous image-generation
patches touch: the comparison modulus of claim C5. -/
def stripImageFields (p : Product) : Product :=
  { p with imageUrl := none, isGeneratingImage := none }

/-- Claim C5: after `addProductsBulk`, the sales, customers, expenses,
liabilities and logs collections are all empty, the products collection
equals the imported set modulo the asynchronously patched image URL and
image-generation flag, and the four configuration scalars are unchanged. -/
theorem addProductsBulk_wipe (newProducts : List Product) (st : AppState) :
    (addProductsBulk newProducts st).sales = []
    ∧ (addProductsBulk newProducts st).customers = []
    ∧ (addProductsBulk newProducts st).expenses = []
    ∧ (addProductsBulk newProducts st).liabilities = []
    ∧ (addProductsBulk newProducts st).logs = []
    ∧ (addProductsBulk newProducts st).products.map stripImageFields
        = newProducts.map stripImageFields
    ∧ (addProductsBulk newProducts st).themeMode = st.themeMode
    ∧ (addProductsBulk newProducts st).dateSystem = st.dateSystem
    ∧ (addProductsBulk newProducts st).currencyCode = st.currencyCode
    ∧ (addProductsBulk newProducts st).customCurrency = st.customCurrency := by
  refine ⟨rfl, rfl, rfl, rfl, rfl, ?_, rfl, rfl, rfl, rfl⟩
  show (newProducts.map (fun p => { p with isGeneratingImage := some true })).map
      stripImageFields = newProducts.map stripImageFields
  rw [List.map_map]
  rfl

/-- Claim C8: `deleteCustomer` removes the customer with the given id and
every sale whose customerId equals it, so afterwards filtering the sales by
that customerId yields the empty list; products, expenses, liabilities and
logs are left unchanged. -/
theorem deleteCustomer_cascade (custId : String) (st : AppState) :
    (deleteCustomer custId st).sales.filter (fun s => s.customerId == custId) = []
    ∧ (deleteCustomer custId st).customers
        = st.customers.filter (fun c => c.id != custId)
    ∧ (deleteCustomer custId st).sales
        = st.sales.filter (fun s => s.customerId != custId)
    ∧ (deleteCustomer custId st).products = st.products
    ∧ (deleteCustomer custId st).expenses = st.expenses
    ∧ (deleteCustomer custId st).liabilities = st.liabilities
    ∧ (deleteCustomer custId st).logs = st.logs := by
  refine ⟨?_, rfl, rfl, rfl, rfl, rfl, rfl⟩
  show (st.sales.filter (fun s => s.customerId != custId)).filter
      (fun s => s.customerId == custId) = []
  rw [List.filter_filter]
  apply List.filter_eq_nil_iff.mpr
  intro a _
  simp

end FarmTrack
namespace FarmTrack

/-- A settled liability used to probe the liability-status transition. -/
def settledLoan : Liability :=
  { id := "L1", source := "Bank", amount := 1000, interestRate := 5,
    date := 0, dueDate := 100, status := .Settled }

/-- A store whose only liability is settled. -/
def settledLoanState : AppState :=
  { initialState with liabilities := [settledLoan] }

/-- Claim C6 counterexample: `updateLiability` is a mutation operation on the
liabilities collection, yet passing it a payload with status Active for a
liability whose stored status is Settled returns that liability's status to
Active, so settlement is not one-way across all four operations. -/
theorem updateLiability_reactivates :
    (settledLoanState.liabilities.find? (fun l => l.id == "L1")).map
        Liability.status = some .Settled
    ∧ ((updateLiability { settledLoan with status := .Active }
          settledLoanState).liabilities.find? (fun l => l.id == "L1")).map
        Liability.status = some .Active := by
  decide

/-- Every stored liability with the given id is settled. -/
def settledAt (libId : String) (st : AppState) : Prop :=
  ∀ l ∈ st.liabilities, l.id = libId → l.status = .Settled

/-- Claim C6 amended: once a liability's status is Settled,
`settleLiability`, `deleteLiability`, and `addLiability` of a liability with
a different id never return its status to Active; `updateLiability` replaces
the stored record wholesale, so it preserves the settled status only when
its payload's status is itself Settled (re-activation through
`updateLiability` with an Active payload is possible, as the counterexample
shows). -/
theorem liability_settlement_one_way (st : AppState) (libId targetId : String)
    (newLib upd : Liability) (hset : settledAt libId st) :
    settledAt libId (settleLiability targetId st)
    ∧ settledAt libId (deleteLiability targetId st)
    ∧ (newLib.id ≠ libId → settledAt libId (addLiability newLib st))
    ∧ (upd.status = .Settled → settledAt libId (updateLiability upd st)) := by
  refine ⟨?_, ?_, ?_, ?_⟩
  · intro l hl hid
    rcases List.mem_map.mp hl with ⟨l0, hl0, rfl⟩
    by_cases h : l0.id == targetId
    · simp [h]
    · simp only [h, if_neg, Bool.false_eq_true, not_false_iff, if_false] at hid ⊢
      exact hset l0 hl0 hid
  · intro l hl hid
    exact hset l (List.mem_of_mem_filter hl) hid
  · intro hne l hl hid
    rcases List.mem_cons.mp hl with rfl | hmem
    · exact absurd hid hne
    · exact hset l hmem hid
  · intro hupd l hl hid
    rcases List.mem_map.mp hl with ⟨l0, hl0, rfl⟩
    by_cases h : l0.id == upd.id
    · simpa [h] using hupd
    · simp only [h, Bool.false_eq_true, not_false_iff, if_false] at hid ⊢
      exact hset l0 hl0 hid

/-- A fresh, still active liability with an id different from the settled
one, used to instantiate the amended claim C6. -/
def freshLoan : Liability :=
  { id := "L2", source := "Coop", amount := 500, interestRate := 3,
    date := 1, dueDate := 200, status := .Active }

/-- Witness for the amended claim C6 at a concrete settled store. -/
theorem liability_settlement_one_way_witness :
    settledAt "L1" (settleLiability "L1" settledLoanState)
    ∧ settledAt "L1" (deleteLiability "L1" settledLoanState)
    ∧ (freshLoan.id ≠ "L1" → settledAt "L1" (addLiability freshLoan settledLoanState))
    ∧ (settledLoan.status = .Settled →
        settledAt "L1" (updateLiability settledLoan settledLoanState)) :=
  liability_settlement_one_way settledLoanState "L1" "L1" freshLoan settledLoan
    (by unfold settledAt; decide)

/-- Claim C7: `updateCustomer` with a customer whose name changed from N to
N2 rewrites the customerName of every activity log whose customerName equals
N to N2, leaves all other logs unchanged in every field, and replaces the
customer record; when the name did not change, the logs are left entirely
unchanged. -/
theorem updateCustomer_cascade_rename (updatedCustomer : Customer)
    (st : AppState) (oldC : Customer)
    (hfind : st.customers.find? (fun c => c.id == updatedCustomer.id) = some oldC) :
    (oldC.name ≠ updatedCustomer.name →
      (updateCustomer updatedCustomer st).logs
        = st.logs.map (fun log =>
            if log.customerName == oldC.name then
              { log with customerName := updatedCustomer.name }
            else log))
    ∧ (oldC.name = updatedCustomer.name →
        (updateCustomer updatedCustomer st).logs = st.logs)
    ∧ (updateCustomer updatedCustomer st).customers
        = st.customers.map (fun c =>
            if c.id == updatedCustomer.id then updatedCustomer else c) := by
  refine ⟨?_, ?_, rfl⟩ <;> intro h <;> simp [updateCustomer, hfind, h]

end FarmTrack
namespace FarmTrack

theorem syncRun_changes (c : SyncController) (l : List AppState)
    (stLast : AppState) :
    syncRun c ((l ++ [stLast]).map SyncEvent.change)
      = { c with pending := some stLast } := by
  induction l generalizing c with
  | nil => rfl
  | cons a l ih =>
    show syncRun { c with pending := some a }
        ((l ++ [stLast]).map SyncEvent.change) = _
    rw [ih]

/-- Claim C9: a burst of state changes followed by the expiry of the debounce
timer produces exactly one persistence flush, carrying the last state of the
burst (each change cancels the previously armed timer); the debounce window
is the fixed 1000ms constant. -/
theorem debounce_collapse (c : SyncController) (sts : List AppState)
    (stLast : AppState) (now : Int) :
    (syncRun c ((sts ++ [stLast]).map SyncEvent.change
        ++ [SyncEvent.timerFire now])).flushes
      = c.flushes ++ [{ data := stLast, lastUpdated := now }]
    ∧ (syncRun c ((sts ++ [stLast]).map SyncEvent.change
        ++ [SyncEvent.timerFire now])).pending = none
    ∧ debounceMs = 1000 := by
  have h := syncRun_changes c sts stLast
  simp only [syncRun] at h ⊢
  rw [List.foldl_append, h]
  exact ⟨rfl, rfl, rfl⟩

/-- The Updated log entry `updateSale` records; the product and customer
names are looked up in the pre-update collections. -/
def updatedLogFor (freshId : String) (now : Int) (st : AppState)
    (updatedSale : Sale) : ActivityLog :=
  { id := freshId, action := .Updated, timestamp := now,
    details := "Adjusted quantity: " ++ toString updatedSale.quantity ++
      ", Status: " ++ updatedSale.paymentStatus.label,
    entityName := jsStringOr
      ((st.products.find? (fun prod => prod.id == updatedSale.productId)).map
        Product.name) "Unknown",
    customerName := jsStringOr
      ((st.customers.find? (fun cust => cust.id == updatedSale.customerId)).map
        Customer.name) "Unknown",
    amount := updatedSale.totalAmount, metadata := none }

/-- Claim C2: updating a sale that referenced product A with a replacement
referencing a different product B restores A's stock by the old quantity,
decrements B's stock by the new quantity floored at 0, replaces the stored
sale record, and appends an Updated activity log. -/
theorem updateSale_reconciliation (freshId : String) (now : Int)
    (updatedSale oldSale : Sale) (st : AppState)
    (hfind : st.sales.find? (fun s => s.id == updatedSale.id) = some oldSale)
    (hAB : oldSale.productId ≠ updatedSale.productId)
    (hA : productExists oldSale.productId st)
    (hB : productExists updatedSale.productId st) :
    stockOf oldSale.productId (updateSale freshId now updatedSale st)
      = stockOf oldSale.productId st + oldSale.quantity
    ∧ stockOf updatedSale.productId (updateSale freshId now updatedSale st)
      = max 0 (stockOf updatedSale.productId st - updatedSale.quantity)
    ∧ (updateSale freshId now updatedSale st).sales
      = st.sales.map (fun s => if s.id == updatedSale.id then updatedSale else s)
    ∧ (updateSale freshId now updatedSale st).logs
      = updatedLogFor freshId now st updatedSale :: st.logs := by
  obtain ⟨pA, hfindA⟩ := Option.isSome_iff_exists.mp hA
  obtain ⟨pB, hfindB⟩ := Option.isSome_iff_exists.mp hB
  have hidA : pA.id = oldSale.productId := by
    have h := List.find?_some hfindA
    simpa using h
  have hidB : pB.id = updatedSale.productId := by
    have h := List.find?_some hfindB
    simpa using h
  have hg1 : ∀ x : Product,
      ((fun p : Product => if p.id == oldSale.productId then
          { p with currentStock := p.currentStock + oldSale.quantity }
        else p) x).id = x.id := by
    intro x
    by_cases h : x.id == oldSale.productId <;> simp [h]
  have hg2 : ∀ x : Product,
      ((fun p : Product => if p.id == updatedSale.productId then
          { p with currentStock := max 0 (p.currentStock - updatedSale.quantity) }
        else p) x).id = x.id := by
    intro x
    by_cases h : x.id == updatedSale.productId <;> simp [h]
  refine ⟨?_, ?_, ?_, ?_⟩
  · simp only [updateSale, hfind, stockOf]
    rw [find?_map_id hg2, find?_map_id hg1, hfindA]
    simp [hidA, hAB, Ne.symm hAB]
  · simp only [updateSale, hfind, stockOf]
    rw [find?_map_id hg2, find?_map_id hg1, hfindB]
    simp [hidB, hAB, Ne.symm hAB]
  · simp only [updateSale, hfind]
  · simp only [updateSale, hfind, recordActivity, updatedLogFor]

end FarmTrack
namespace FarmTrack

/-- The Created log entry `restoreSale` records after re-inserting the
snapshot sale. -/
def restoredLogFor (freshId : String) (now : Int) (log : ActivityLog) :
    ActivityLog :=
  { id := freshId, action := .Created, timestamp := now,
    details := "Restored archived transaction: " ++ log.details,
    entityName := log.entityName, customerName := log.customerName,
    amount := log.amount, metadata := none }

/-- Claim C4: when the log carries a snapshot and no sale with the snapshot's
id exists, `restoreSale` re-inserts the snapshot sale, decrements the
referenced product's stock by the sale quantity floored at 0, removes the
source log and appends a new Created log; when a sale with that id already
exists it aborts leaving the state unchanged (the error is a UI alert), so
calling `restoreSale` twice in a row with the same log never double-inserts
the sale. -/
theorem restoreSale_guard (freshId freshId2 : String) (now now2 : Int)
    (log : ActivityLog) (st : AppState) (s : Sale)
    (hmeta : log.metadata = some s) :
    ((∀ t ∈ st.sales, t.id ≠ s.id) →
        (restoreSale freshId now log st).sales = s :: st.sales
        ∧ (restoreSale freshId now log st).products
            = st.products.map (fun p =>
                if p.id == s.productId then
                  { p with currentStock := max 0 (p.currentStock - s.quantity) }
                else p)
        ∧ (restoreSale freshId now log st).logs
            = restoredLogFor freshId now log
                :: st.logs.filter (fun l => l.id != log.id))
    ∧ ((∃ t ∈ st.sales, t.id = s.id) → restoreSale freshId now log st = st)
    ∧ restoreSale freshId2 now2 log (restoreSale freshId now log st)
        = restoreSale freshId now log st := by
  have key : ∀ (fi : String) (n : Int) (st2 : AppState),
      (∃ x ∈ st2.sales, x.id = s.id) → restoreSale fi n log st2 = st2 := by
    intro fi n st2 h2
    simp [restoreSale, hmeta, h2]
  refine ⟨?_, ?_, ?_⟩
  · intro h
    have hexneg : ¬ ∃ x ∈ st.sales, x.id = s.id := by
      rintro ⟨t, ht, hid⟩
      exact h t ht hid
    refine ⟨?_, ?_, ?_⟩ <;>
      simp [restoreSale, hmeta, hexneg, recordActivity, restoredLogFor]
  · exact fun hex => key freshId now st hex
  · by_cases hex : ∃ x ∈ st.sales, x.id = s.id
    · rw [key freshId now st hex]
      exact key freshId2 now2 st hex
    · have h1 : (restoreSale freshId now log st).sales = s :: st.sales := by
        simp [restoreSale, hmeta, hex]
      refine key freshId2 now2 _ ⟨s, ?_, rfl⟩
      rw [h1]
      exact List.mem_cons_self _ _

end FarmTrack
namespace FarmTrack

theorem updateFirst_mem {α : Type} {p : α → Bool} {f : α → α} {l : List α}
    {x : α} (hx : x ∈ updateFirst p f l) : x ∈ l ∨ ∃ y ∈ l, x = f y := by
  induction l with
  | nil => simp only [updateFirst] at hx; cases hx
  | cons a as ih =>
    simp only [updateFirst] at hx
    split at hx
    · rcases List.mem_cons.mp hx with h1 | h1
      · exact Or.inr ⟨a, List.mem_cons_self a as, h1⟩
      · exact Or.inl (List.mem_cons_of_mem a h1)
    · rcases List.mem_cons.mp hx with h1 | h1
      · exact Or.inl (h1 ▸ List.mem_cons_self a as)
      · rcases ih h1 with h2 | ⟨y, hy, he⟩
        · exact Or.inl (List.mem_cons_of_mem a h2)
        · exact Or.inr ⟨y, List.mem_cons_of_mem a hy, he⟩

theorem importRow_currentProducts (now : Int) (idx : Nat) (row : CsvRow)
    (acc : ImportAcc) :
    (importRow now idx row acc).currentProducts
      = updateFirst
          (fun p : Product => p.name.toLower.trim == row.Product.toLower.trim)
          (fun p => { p with currentStock := max 0 (p.currentStock - row.Quantity) })
          (match acc.currentProducts.find?
              (fun p : Product => p.name.toLower.trim == row.Product.toLower.trim) with
            | some _ => acc.currentProducts
            | none => acc.currentProducts ++ [importedProduct now idx row]) := by
  simp only [importRow]
  cases acc.currentProducts.find?
      (fun p : Product => p.name.toLower.trim == row.Product.toLower.trim) <;>
    cases acc.currentCustomers.find?
      (fun c : Customer => c.name.toLower.trim == row.Customer.toLower.trim) <;>
    rfl

theorem importRow_stock_zero {now : Int} {idx : Nat} {row : CsvRow}
    {acc : ImportAcc} (hq : 0 <= row.Quantity)
    (hacc : ∀ p ∈ acc.currentProducts, p.currentStock = 0) :
    ∀ p ∈ (importRow now idx row acc).currentProducts, p.currentStock = 0 := by
  intro p hp
  rw [importRow_currentProducts] at hp
  have hmem : ∀ q : Product,
      q ∈ (match acc.currentProducts.find?
          (fun p : Product => p.name.toLower.trim == row.Product.toLower.trim) with
        | some _ => acc.currentProducts
        | none => acc.currentProducts ++ [importedProduct now idx row]) →
      q.currentStock = 0 := by
    intro q hq2
    cases hfp : acc.currentProducts.find?
        (fun p : Product => p.name.toLower.trim == row.Product.toLower.trim) with
    | some p0 =>
      rw [hfp] at hq2
      exact hacc q hq2
    | none =>
      rw [hfp] at hq2
      rcases List.mem_append.mp hq2 with h1 | h1
      · exact hacc q h1
      · simp only [List.mem_singleton] at h1
        rw [h1]
        rfl
  rcases updateFirst_mem hp with h1 | ⟨y, hy, he⟩
  · exact hmem p h1
  · have hy0 : y.currentStock = 0 := hmem y hy
    rw [he]
    simp only [hy0]
    omega


theorem importRows_stock_zero (now : Int) (rows : List CsvRow) :
    ∀ (idx : Nat) (acc : ImportAcc), (∀ r ∈ rows, 0 ≤ r.Quantity) →
      (∀ p ∈ acc.currentProducts, p.currentStock = 0) →
      ∀ p ∈ (importRows now idx rows acc).currentProducts, p.currentStock = 0 := by
  induction rows with
  | nil => intro idx acc _ hacc; exact hacc
  | cons row rest ih =>
    intro idx acc hq hacc
    have hrow : 0 ≤ row.Quantity := hq row (List.mem_cons_self row rest)
    have hrest : ∀ r ∈ rest, 0 ≤ r.Quantity :=
      fun r hr => hq r (List.mem_cons_of_mem row hr)
    exact ih (idx + 1) (importRow now idx row acc) hrest
      (importRow_stock_zero hrow hacc)

/-- Claim C10: every product record synthesized by `bulkImportSales` is
created with currentStock 0 and its per-row decrement is floored at 0, so for
every import batch with positive quantities every product in the resulting
products collection has currentStock exactly 0. -/
theorem bulkImportSales_stock_zero (now : Int) (rows : List CsvRow)
    (st : AppState) (hq : ∀ r ∈ rows, 0 < r.Quantity) :
    ∀ p ∈ (bulkImportSales now rows st).products, p.currentStock = 0 := by
  intro p hp
  have hq' : ∀ r ∈ rows, 0 ≤ r.Quantity := fun r hr => le_of_lt (hq r hr)
  exact importRows_stock_zero now rows 0 ⟨[], [], []⟩ hq'
    (by intro q hq''; cases hq'') p hp

end FarmTrack
namespace FarmTrack

theorem stockOf_nonneg (pid : String) (st : AppState) (hws : saleStateWF st) :
    0 ≤ stockOf pid st := by
  rw [stockOf]
  split
  · next p hf => exact hws.1 p (List.mem_of_find?_eq_some hf)
  · exact le_refl 0

theorem stockOf_applySaleOp (st : AppState) (op : SaleOp) (pid : String)
    (hws : saleStateWF st) (hop : opQtyNonneg op) (hex : productExists pid st) :
    stockOf pid (applySaleOp st op)
      = max 0 (stockOf pid st - chargeOf pid st op) := by
  obtain ⟨p0, hfind0⟩ := Option.isSome_iff_exists.mp hex
  have hid0 : p0.id = pid := by
    have h := List.find?_some hfind0
    simpa using h
  have hnn : 0 ≤ p0.currentStock := hws.1 p0 (List.mem_of_find?_eq_some hfind0)
  cases op with
  | add f n s =>
    have hg : ∀ x : Product,
        ((fun prod : Product => if prod.id == s.productId then
            { prod with currentStock := max 0 (prod.currentStock - s.quantity) }
          else prod) x).id = x.id := by
      intro x
      by_cases h : x.id == s.productId <;> simp [h]
    simp only [applySaleOp, addSale, stockOf, chargeOf]
    rw [find?_map_id hg, hfind0]
    by_cases hpid : s.productId = pid
    · simp [Option.map_some', hid0, hpid]
    · simp [Option.map_some', hid0, hpid, Ne.symm hpid]
      omega
  | update f n s =>
    cases hfind : st.sales.find? (fun t => t.id == s.id) with
    | none =>
      simp only [applySaleOp, updateSale, hfind, chargeOf, stockOf]
      rw [hfind0]
      simp only []
      omega
    | some oldSale =>
      have hqold : 0 ≤ oldSale.quantity :=
        hws.2 oldSale (List.mem_of_find?_eq_some hfind)
      have hg1 : ∀ x : Product,
          ((fun p : Product => if p.id == oldSale.productId then
              { p with currentStock := p.currentStock + oldSale.quantity }
            else p) x).id = x.id := by
        intro x
        by_cases h : x.id == oldSale.productId <;> simp [h]
      have hg2 : ∀ x : Product,
          ((fun p : Product => if p.id == s.productId then
              { p with currentStock := max 0 (p.currentStock - s.quantity) }
            else p) x).id = x.id := by
        intro x
        by_cases h : x.id == s.productId <;> simp [h]
      simp only [applySaleOp, updateSale, hfind, stockOf, chargeOf]
      rw [find?_map_id hg2, find?_map_id hg1, hfind0]
      by_cases hA : oldSale.productId = pid <;> by_cases hB : s.productId = pid
      · simp [Option.map_some', hid0, hA, hB]
        omega
      · simp [Option.map_some', hid0, hA, hB, Ne.symm hB]
        omega
      · simp [Option.map_some', hid0, hA, hB, Ne.symm hA]
      · simp [Option.map_some', hid0, hA, hB, Ne.symm hA, Ne.symm hB]
        omega
  | del f n i =>
    simp only [applySaleOp, deleteSale, stockOf, chargeOf]
    rw [hfind0]
    simp only []
    omega
  | restore f n lg =>
    cases hmeta : lg.metadata with
    | none =>
      simp only [applySaleOp, restoreSale, hmeta, chargeOf, stockOf]
      rw [hfind0]
      simp only []
      omega
    | some s =>
      by_cases hany : st.sales.any (fun t => t.id == s.id)
      · simp only [applySaleOp, restoreSale, hmeta, hany, if_true, chargeOf,
          stockOf]
        rw [hfind0]
        simp only []
        omega
      · have hany' : st.sales.any (fun t => t.id == s.id) = false := by
          simpa using hany
        have hg : ∀ x : Product,
            ((fun p : Product => if p.id == s.productId then
                { p with currentStock := max 0 (p.currentStock - s.quantity) }
              else p) x).id = x.id := by
          intro x
          by_cases h : x.id == s.productId <;> simp [h]
        simp only [applySaleOp, restoreSale, hmeta, hany', Bool.false_eq_true,
          if_false, stockOf, chargeOf]
        rw [find?_map_id hg, hfind0]
        by_cases hpid : s.productId = pid
        · simp [Option.map_some', hid0, hpid]
        · simp [Option.map_some', hid0, hpid, Ne.symm hpid]
          omega

end FarmTrack
namespace FarmTrack

theorem saleStateWF_applySaleOp (st : AppState) (op : SaleOp)
    (hws : saleStateWF st) (hop : opQtyNonneg op) :
    saleStateWF (applySaleOp st op) := by
  obtain ⟨hprod, hsale⟩ := hws
  cases op with
  | add f n s =>
    refine ⟨?_, ?_⟩
    · intro p hp
      simp only [applySaleOp, addSale] at hp
      rcases List.mem_map.mp hp with ⟨q, hq, rfl⟩
      by_cases h : q.id == s.productId
      · simp only [h, if_true]
        exact le_max_left 0 _
      · simp only [h, Bool.false_eq_true, if_false]
        exact hprod q hq
    · intro t ht
      simp only [applySaleOp, addSale, List.mem_cons] at ht
      rcases ht with rfl | ht
      · exact hop
      · exact hsale t ht
  | update f n s =>
    cases hfind : st.sales.find? (fun t => t.id == s.id) with
    | none =>
      simp only [applySaleOp, updateSale, hfind]
      exact ⟨hprod, hsale⟩
    | some oldSale =>
      have hqold : 0 ≤ oldSale.quantity :=
        hsale oldSale (List.mem_of_find?_eq_some hfind)
      refine ⟨?_, ?_⟩
      · intro p hp
        simp only [applySaleOp, updateSale, hfind] at hp
        rcases List.mem_map.mp hp with ⟨q, hq, rfl⟩
        rcases List.mem_map.mp hq with ⟨r, hr, rfl⟩
        have hr0 : 0 ≤ r.currentStock := hprod r hr
        by_cases h1 : r.id == oldSale.productId <;>
          by_cases h2 : r.id == s.productId <;>
            simp [h1, h2] <;>
              omega
      · intro t ht
        simp only [applySaleOp, updateSale, hfind] at ht
        rcases List.mem_map.mp ht with ⟨u, hu, rfl⟩
        by_cases h : u.id == s.id
        · simpa [h] using hop
        · simp only [h, Bool.false_eq_true, if_false]
          exact hsale u hu
  | del f n i =>
    refine ⟨hprod, ?_⟩
    intro t ht
    simp only [applySaleOp, deleteSale] at ht
    exact hsale t (List.mem_of_mem_filter ht)
  | restore f n lg =>
    cases hmeta : lg.metadata with
    | none =>
      simp only [applySaleOp, restoreSale, hmeta]
      exact ⟨hprod, hsale⟩
    | some s =>
      have hqs : 0 ≤ s.quantity := by
        simpa [opQtyNonneg, hmeta] using hop
      by_cases hany : st.sales.any (fun t => t.id == s.id)
      · simp only [applySaleOp, restoreSale, hmeta, hany, if_true]
        exact ⟨hprod, hsale⟩
      · have hany' : st.sales.any (fun t => t.id == s.id) = false := by
          simpa using hany
        refine ⟨?_, ?_⟩
        · intro p hp
          simp only [applySaleOp, restoreSale, hmeta, hany',
            Bool.false_eq_true, if_false] at hp
          rcases List.mem_map.mp hp with ⟨q, hq, rfl⟩
          by_cases h : q.id == s.productId
          · simp only [h, if_true]
            exact le_max_left 0 _
          · simp only [h, Bool.false_eq_true, if_false]
            exact hprod q hq
        · intro t ht
          simp only [applySaleOp, restoreSale, hmeta, hany',
            Bool.false_eq_true, if_false, List.mem_cons] at ht
          rcases ht with rfl | ht
          · exact hqs
          · exact hsale t ht

theorem productExists_applySaleOp (st : AppState) (op : SaleOp) (pid : String)
    (hex : productExists pid st) : productExists pid (applySaleOp st op) := by
  obtain ⟨p0, hfind0⟩ := Option.isSome_iff_exists.mp hex
  cases op with
  | add f n s =>
    have hg : ∀ x : Product,
        ((fun prod : Product => if prod.id == s.productId then
            { prod with currentStock := max 0 (prod.currentStock - s.quantity) }
          else prod) x).id = x.id := by
      intro x
      by_cases h : x.id == s.productId <;> simp [h]
    simp only [productExists, applySaleOp, addSale]
    rw [find?_map_id hg, hfind0]
    rfl
  | update f n s =>
    cases hfind : st.sales.find? (fun t => t.id == s.id) with
    | none =>
      simpa only [applySaleOp, updateSale, hfind, productExists] using hex
    | some oldSale =>
      have hg1 : ∀ x : Product,
          ((fun p : Product => if p.id == oldSale.productId then
              { p with currentStock := p.currentStock + oldSale.quantity }
            else p) x).id = x.id := by
        intro x
        by_cases h : x.id == oldSale.productId <;> simp [h]
      have hg2 : ∀ x : Product,
          ((fun p : Product => if p.id == s.productId then
              { p with currentStock := max 0 (p.currentStock - s.quantity) }
            else p) x).id = x.id := by
        intro x
        by_cases h : x.id == s.productId <;> simp [h]
      simp only [productExists, applySaleOp, updateSale, hfind]
      rw [find?_map_id hg2, find?_map_id hg1, hfind0]
      rfl
  | del f n i =>
    simpa only [applySaleOp, deleteSale, productExists] using hex
  | restore f n lg =>
    cases hmeta : lg.metadata with
    | none =>
      simpa only [applySaleOp, restoreSale, hmeta, productExists] using hex
    | some s =>
      by_cases hany : st.sales.any (fun t => t.id == s.id)
      · simpa only [applySaleOp, restoreSale, hmeta, hany, if_true,
          productExists] using hex
      · have hany' : st.sales.any (fun t => t.id == s.id) = false := by
          simpa using hany
        have hg : ∀ x : Product,
            ((fun p : Product => if p.id == s.productId then
                { p with currentStock := max 0 (p.currentStock - s.quantity) }
              else p) x).id = x.id := by
          intro x
          by_cases h : x.id == s.productId <;> simp [h]
        simp only [productExists, applySaleOp, restoreSale, hmeta, hany',
          Bool.false_eq_true, if_false]
        rw [find?_map_id hg, hfind0]
        rfl

theorem stock_conservation_aux (ops : List SaleOp) :
    ∀ (st : AppState) (pid : String), saleStateWF st → productExists pid st →
      (∀ op ∈ ops, opQtyNonneg op) →
      stockOf pid (applySaleOps st ops)
        = flooredStock (stockOf pid st) (chargesOf pid st ops)
      ∧ saleStateWF (applySaleOps st ops)
      ∧ productExists pid (applySaleOps st ops) := by
  induction ops with
  | nil => exact fun st pid hws hex _ => ⟨rfl, hws, hex⟩
  | cons op ops ih =>
    intro st pid hws hex hops
    have hop := hops op (List.mem_cons_self op ops)
    have hops' := fun o ho => hops o (List.mem_cons_of_mem op ho)
    have hstep := stockOf_applySaleOp st op pid hws hop hex
    have hwf' := saleStateWF_applySaleOp st op hws hop
    have hex' := productExists_applySaleOp st op pid hex
    obtain ⟨he, hw2, hx2⟩ := ih (applySaleOp st op) pid hwf' hex' hops'
    refine ⟨?_, hw2, hx2⟩
    show stockOf pid (applySaleOps (applySaleOp st op) ops) = _
    rw [he, chargesOf]
    show _ = flooredStock (max 0 (stockOf pid st - chargeOf pid st op))
      (chargesOf pid (applySaleOp st op) ops)
    rw [hstep]

/-- Claim C1: for every sequence of addSale, updateSale, deleteSale and
restoreSale operations applied to a well-formed state in which the given
product exists, the product's final currentStock equals the starting stock
minus, step by step, the net quantity charge of each operation (quantity
charged by each addSale and effective restoreSale, old quantity released and
new quantity charged by each effective updateSale, nothing by deleteSale),
with the value floored at 0 at every intermediate step, and the currentStock
is never negative after any prefix of the operations. -/
theorem stock_conservation (ops : List SaleOp) (st : AppState) (pid : String)
    (hws : saleStateWF st) (hex : productExists pid st)
    (hops : ∀ op ∈ ops, opQtyNonneg op) :
    stockOf pid (applySaleOps st ops)
      = flooredStock (stockOf pid st) (chargesOf pid st ops)
    ∧ ∀ n, 0 ≤ stockOf pid (applySaleOps st (ops.take n)) := by
  refine ⟨(stock_conservation_aux ops st pid hws hex hops).1, ?_⟩
  intro n
  have hops' : ∀ op ∈ ops.take n, opQtyNonneg op :=
    fun op ho => hops op (List.take_subset n ops ho)
  exact stockOf_nonneg pid _
    (stock_conservation_aux (ops.take n) st pid hws hex hops').2.1

end FarmTrack
namespace FarmTrack

/-- Concrete catalog product used by the witness instantiations. -/
def kale0 : Product :=
  { id := "P1", name := "Kale", unit := "kg", basePrice := 5,
    category := "Vegetables", currentStock := 10, minStockLevel := 5 }

/-- A second catalog product, target of the reassignment scenario. -/
def beet0 : Product :=
  { id := "P2", name := "Beet", unit := "kg", basePrice := 3,
    category := "Vegetables", currentStock := 7, minStockLevel := 2 }

/-- Concrete sale of 4 units of the first product. -/
def sale0 : Sale :=
  { id := "S1", customerId := "C1", productId := "P1", quantity := 4,
    totalAmount := 20, date := 0, paymentStatus := .Paid }

/-- A store holding only the first product. -/
def st0 : AppState := { initialState with products := [kale0] }

/-- An archived Deleted log carrying the snapshot of `sale0`. -/
def archivedLog0 : ActivityLog :=
  { id := "g2", action := .Deleted, timestamp := 1, details := "archived",
    entityName := "Kale", customerName := "Retail", amount := 20,
    metadata := some sale0 }

/-- The Kale scenario of the spec: sell 4 units, delete the sale, restore it
from the archived log. -/
def opsC1 : List SaleOp :=
  [.add "g1" 0 sale0, .del "g2" 1 "S1", .restore "g3" 2 archivedLog0]

/-- Witness for claim C1 on the concrete sell-delete-restore scenario. -/
theorem stock_conservation_witness :
    stockOf "P1" (applySaleOps st0 opsC1)
      = flooredStock (stockOf "P1" st0) (chargesOf "P1" st0 opsC1)
    ∧ ∀ n, 0 ≤ stockOf "P1" (applySaleOps st0 (opsC1.take n)) :=
  stock_conservation opsC1 st0 "P1" ⟨by decide, by decide⟩ rfl
    (by
      intro op ho
      simp only [opsC1, List.mem_cons, List.not_mem_nil, or_false] at ho
      rcases ho with rfl | rfl | rfl <;>
        simp [opQtyNonneg, archivedLog0, sale0])

/-- The updated sale of the reassignment scenario: same id, product P2,
quantity 5. -/
def saleB : Sale :=
  { id := "S1", customerId := "C1", productId := "P2", quantity := 5,
    totalAmount := 15, date := 0, paymentStatus := .Pending }

/-- The old sale of the reassignment scenario: product P1, quantity 2. -/
def saleA : Sale :=
  { id := "S1", customerId := "C1", productId := "P1", quantity := 2,
    totalAmount := 10, date := 0, paymentStatus := .Paid }

/-- Store for the reassignment scenario: two products and the old sale. -/
def stC2 : AppState :=
  { initialState with products := [kale0, beet0], sales := [saleA] }

/-- Witness for claim C2 at the concrete reassignment scenario. -/
theorem updateSale_reconciliation_witness :
    stockOf saleA.productId (updateSale "u1" 3 saleB stC2)
      = stockOf saleA.productId stC2 + saleA.quantity
    ∧ stockOf saleB.productId (updateSale "u1" 3 saleB stC2)
      = max 0 (stockOf saleB.productId stC2 - saleB.quantity)
    ∧ (updateSale "u1" 3 saleB stC2).sales
      = stC2.sales.map (fun s => if s.id == saleB.id then saleB else s)
    ∧ (updateSale "u1" 3 saleB stC2).logs
      = updatedLogFor "u1" 3 stC2 saleB :: stC2.logs :=
  updateSale_reconciliation "u1" 3 saleB saleA stC2 (by decide) (by decide)
    rfl rfl

/-- Store for the delete scenario: the product and its recorded sale. -/
def stC3 : AppState :=
  { initialState with products := [kale0], sales := [sale0] }

/-- Witness for claim C3 at the concrete delete scenario. -/
theorem deleteSale_asymmetry_witness :
    (deleteSale "d1" 4 "S1" stC3).sales
        = stC3.sales.filter (fun t => t.id != "S1")
    ∧ (∀ t ∈ (deleteSale "d1" 4 "S1" stC3).sales, t.id ≠ "S1")
    ∧ (deleteSale "d1" 4 "S1" stC3).products = stC3.products
    ∧ ∃ dLog, (deleteSale "d1" 4 "S1" stC3).logs = dLog :: stC3.logs
        ∧ dLog.action = .Deleted ∧ dLog.metadata = some sale0 :=
  deleteSale_asymmetry "d1" 4 "S1" stC3 sale0 (by decide)

/-- Witness for claim C4: restoring the archived sale into a store that does
not contain it, and the guard on the repeated call. -/
theorem restoreSale_guard_witness :
    ((∀ t ∈ st0.sales, t.id ≠ sale0.id) →
        (restoreSale "r1" 5 archivedLog0 st0).sales = sale0 :: st0.sales
        ∧ (restoreSale "r1" 5 archivedLog0 st0).products
            = st0.products.map (fun p =>
                if p.id == sale0.productId then
                  { p with currentStock := max 0 (p.currentStock - sale0.quantity) }
                else p)
        ∧ (restoreSale "r1" 5 archivedLog0 st0).logs
            = restoredLogFor "r1" 5 archivedLog0
                :: st0.logs.filter (fun l => l.id != archivedLog0.id))
    ∧ ((∃ t ∈ st0.sales, t.id = sale0.id) →
        restoreSale "r1" 5 archivedLog0 st0 = st0)
    ∧ restoreSale "r2" 6 archivedLog0 (restoreSale "r1" 5 archivedLog0 st0)
        = restoreSale "r1" 5 archivedLog0 st0 :=
  restoreSale_guard "r1" "r2" 5 6 archivedLog0 st0 sale0 (by decide)

/-- The customer of the rename scenario. -/
def alice : Customer :=
  { id := "C1", name := "Alice", phone := "1", createdAt := 0 }

/-- The renamed customer record: same id, new name. -/
def aliceSmith : Customer :=
  { id := "C1", name := "Alice Smith", phone := "1", createdAt := 0 }

/-- A log denormalizing the old customer name. -/
def logAlice : ActivityLog :=
  { id := "m1", action := .Created, timestamp := 0, details := "d",
    entityName := "Kale", customerName := "Alice", amount := 5 }

/-- A log for an unrelated customer. -/
def logBob : ActivityLog :=
  { id := "m2", action := .Created, timestamp := 0, details := "d",
    entityName := "Kale", customerName := "Bob", amount := 6 }

/-- Store for the rename scenario. -/
def stC7 : AppState :=
  { initialState with customers := [alice], logs := [logAlice, logBob] }

/-- Witness for claim C7 at the concrete rename scenario. -/
theorem updateCustomer_cascade_rename_witness :
    (alice.name ≠ aliceSmith.name →
      (updateCustomer aliceSmith stC7).logs
        = stC7.logs.map (fun log =>
            if log.customerName == alice.name then
              { log with customerName := aliceSmith.name }
            else log))
    ∧ (alice.name = aliceSmith.name →
        (updateCustomer aliceSmith stC7).logs = stC7.logs)
    ∧ (updateCustomer aliceSmith stC7).customers
        = stC7.customers.map (fun c =>
            if c.id == aliceSmith.id then aliceSmith else c) :=
  updateCustomer_cascade_rename aliceSmith stC7 alice (by decide)

/-- First CSV row of the concrete import batch. -/
def rowC10a : CsvRow :=
  { Customer := "Alice", Product := "Kale", Amount := 20, Quantity := 4 }

/-- Second CSV row: same product up to case and whitespace. -/
def rowC10b : CsvRow :=
  { Customer := "bob", Product := " kale", Amount := 10, Quantity := 2,
    Status := some "pending" }

/-- Two CSV rows exercising customer and product synthesis with a repeated
(case- and whitespace-insensitive) product name. -/
def rowsC10 : List CsvRow := [rowC10a, rowC10b]

theorem updateFirst_length {α : Type} (p : α → Bool) (f : α → α)
    (l : List α) : (updateFirst p f l).length = l.length := by
  induction l with
  | nil => rfl
  | cons a as ih =>
    simp only [updateFirst]
    split
    · rfl
    · simp [ih]

theorem importRow_products_length_le (now : Int) (idx : Nat) (row : CsvRow)
    (acc : ImportAcc) :
    acc.currentProducts.length
      ≤ (importRow now idx row acc).currentProducts.length := by
  rw [importRow_currentProducts, updateFirst_length]
  cases acc.currentProducts.find?
      (fun p : Product => p.name.toLower.trim == row.Product.toLower.trim) with
  | none => simp
  | some p0 => simp

theorem importRows_products_length_le (now : Int) (rows : List CsvRow) :
    ∀ (idx : Nat) (acc : ImportAcc),
      acc.currentProducts.length
        ≤ (importRows now idx rows acc).currentProducts.length := by
  induction rows with
  | nil => exact fun idx acc => le_refl _
  | cons row rest ih =>
    intro idx acc
    exact le_trans (importRow_products_length_le now idx row acc)
      (ih (idx + 1) (importRow now idx row acc))

theorem bulkImportSales_rowsC10_products_ne_nil :
    (bulkImportSales 7 rowsC10 initialState).products ≠ [] := by
  apply List.ne_nil_of_length_pos
  show 0 < (importRows 7 0 rowsC10 ⟨[], [], []⟩).currentProducts.length
  have h0 : (importRow 7 0 rowC10a ⟨[], [], []⟩).currentProducts.length = 1 := by
    rw [importRow_currentProducts, updateFirst_length]
    rfl
  have h1 := importRows_products_length_le 7 [rowC10b] 1
    (importRow 7 0 rowC10a ⟨[], [], []⟩)
  show 0 < (importRows 7 1 [rowC10b] (importRow 7 0 rowC10a ⟨[], [], []⟩)).currentProducts.length
  omega

/-- Witness for claim C10 at a concrete import batch: the first product of
the import result has stock 0. -/
theorem bulkImportSales_stock_zero_witness :
    ((bulkImportSales 7 rowsC10 initialState).products.head
        bulkImportSales_rowsC10_products_ne_nil).currentStock = 0 :=
  bulkImportSales_stock_zero 7 rowsC10 initialState (by decide) _
    (List.head_mem bulkImportSales_rowsC10_products_ne_nil)

end FarmTrack
